import Mathlib

/-!
Verification of the attestation max-cover aggregation engine
(`shared/aggregation/attestations/maxcover.go`).

Bit vectors (`bitfield.Bitlist` / `bitfield.Bitlist64`) are embedded as
`List Bool`; the spec fixes the byte encoding as a round-trip-exact external
format (§4.1, §6), so decode/encode conversions between the two bitfield
types are modelled as the identity on bits.  Signatures are opaque: a
signature byte string either decodes (`some n`) or is malformed (`none`),
and the external BLS aggregate of decoded signatures is modelled by a
commutative, associative combination (addition), per the §4.3 contract.
Go slice aliasing in the two orchestrators is modelled explicitly: the
straightforward engine tracks the caller's backing array (a prefix of which
is the live `unaggregated` slice), and the optimized engine tracks both
backing arrays together with the window offsets of its `aggregated`,
`unaggregated` and `candidates` slices.  A Go runtime panic (index out of
range, negative slice bound, nil dereference) is a distinguished outcome,
separate from returning an `error`.
-/

/-- Popcount of a bit vector (`Bitlist.Count`). -/
def bCount (b : List Bool) : Nat := (b.filter id).length

/-- Bitwise AND of two equal-length bit vectors (`Bitlist.And`). -/
def bAnd (a b : List Bool) : List Bool := List.zipWith and a b

/-- Bitwise OR of two equal-length bit vectors (`Bitlist.Or`). -/
def bOr (a b : List Bool) : List Bool := List.zipWith or a b

/-- Bitwise XOR of two equal-length bit vectors (`Bitlist.Xor`). -/
def bXor (a b : List Bool) : List Bool := List.zipWith xor a b

/-- The all-zero bit vector of length `n`. -/
def bZero (n : Nat) : List Bool := List.replicate n false

/-- Two bit vectors have no common set bit. -/
def bDisjoint (a b : List Bool) : Bool := bCount (bAnd a b) == 0

/-- `bContains a b`: every set bit of `b` is set in `a` (`Bitlist.Contains`). -/
def bContains (a b : List Bool) : Bool :=
  (List.zipWith (fun x y => !y || x) a b).all id

/-- An attestation: aggregation bits, an opaque vote-data payload, and opaque
signature bytes (`none` models bytes that fail BLS decoding). -/
structure Attestation where
  aggregationBits : List Bool
  data : Nat
  signature : Option Nat
deriving DecidableEq, Repr

instance : Inhabited Attestation := ⟨⟨[], 0, none⟩⟩

/-- The error taxonomy of the aggregation module (§7). -/
inductive AggError where
  | invalidMaxCoverProblem
  | bitsDifferentLen
  | invalidAttestationCount
  | invalidSignature
deriving DecidableEq, Repr

/-- `attList.validate`: nil/empty list and nil/empty first bitlist are fatal
(`ErrInvalidMaxCoverProblem`); a later bitlist that is nil or of a different
length yields the non-fatal `ErrBitsDifferentLen`.  A nil list/bitlist is
modelled as the empty one (the Go code raises the same class of error for
both). -/
def validate (al : List Attestation) : Option AggError :=
  match al with
  | [] => some .invalidMaxCoverProblem
  | a0 :: rest =>
    if a0.aggregationBits.length = 0 then some .invalidMaxCoverProblem
    else if rest.all (fun a => a.aggregationBits.length == a0.aggregationBits.length) then none
    else some .bitsDifferentLen

/-- `validateAttestations` simply delegates to `attList.validate`. -/
def validateAttestations (atts : List Attestation) : Option AggError :=
  validate atts

/-- Modelled from the spec: the greedy pick of one round step of the
CoverageSolver (§4.2, the solver's code under `shared/aggregation` is not
part of the provided sources).  Among the not-yet-selected candidates whose
bits are pairwise disjoint with every already-selected candidate, pick the
one with largest popcount, ties broken by lowest original index; `none` when
no such candidate exists or the best one adds zero new bits. -/
def pickBest (cands : List (List Bool)) (selected : List Nat) : Option Nat :=
  let eligible := (List.range cands.length).filter (fun i =>
    !(selected.contains i) &&
      selected.all (fun j => bDisjoint (cands.getD i []) (cands.getD j [])))
  let best := eligible.foldl (fun acc i =>
    match acc with
    | none => some i
    | some k => if bCount (cands.getD i []) > bCount (cands.getD k []) then some i else some k)
    none
  match best with
  | none => none
  | some k => if bCount (cands.getD k []) == 0 then none else some k

/-- Modelled from the spec: the CoverageSolver selection loop (§4.2), bounded
by the remaining budget; returns selected keys in selection order together
with the covered bit vector. -/
def maxCoverLoop : Nat → List (List Bool) → List Nat → List Bool → List Nat × List Bool
  | 0, _, sel, cov => (sel.reverse, cov)
  | fuel+1, cands, sel, cov =>
    match pickBest cands sel with
    | none => (sel.reverse, cov)
    | some i => maxCoverLoop fuel cands (i :: sel) (bOr cov (cands.getD i []))

/-- Modelled from the spec: one round of greedy non-overlapping maximum
coverage (§4.2), the contract shared by `MaxCoverProblem.Cover` and
`aggregation.MaxCover` (neither is under the provided sources).  Fails with
`InvalidProblem` when the candidate list is empty or a candidate has zero
length; in this use overlaps are always forbidden. -/
def maxCover (cands : List (List Bool)) (k : Nat) :
    Except AggError (List Nat × List Bool) :=
  if cands.length == 0 || cands.any (fun c => c.length == 0) then
    .error .invalidMaxCoverProblem
  else
    .ok (maxCoverLoop (min k cands.length) cands [] (bZero (cands.headD []).length))

/-- Decode the signatures of a list of attestations in order, failing with
`InvalidSignature` at the first malformed one (the decode loop of
`attList.aggregate`). -/
def decodeSigs : List Attestation → Except AggError (List Nat)
  | [] => .ok []
  | a :: rest =>
    match a.signature with
    | none => .error .invalidSignature
    | some s => (decodeSigs rest).map (fun ss => s :: ss)

/-- `attList.aggregate`: builds one aggregate attestation from the selected
list, guarding against fewer than 2 constituents, with bits = the solver's
coverage, data copied from the first member and the combined signature. -/
def attList.aggregate (al : List Attestation) (coverage : List Bool) :
    Except AggError Attestation :=
  if al.length < 2 then .error .invalidAttestationCount
  else
    (decodeSigs al).map (fun signs =>
      { aggregationBits := coverage
        data := (al.headD default).data
        signature := some (signs.foldl (· + ·) 0) })

/-- `attList.selectUsingKeys`: the items at the given keys, in key order. -/
def selectUsingKeys (al : List Attestation) (keys : List Nat) : List Attestation :=
  keys.map (fun k => al.getD k default)

/-- `attList.selectComplementUsingKeys`: the items whose positions are not
among the given (duplicate-free) keys, in order.  In Go this compacts the
kept items into the front of the same backing array. -/
def selectComplementUsingKeys (al : List Attestation) (keys : List Nat) :
    List Attestation :=
  ((List.range al.length).filter (fun i => !(keys.contains i))).map
    (fun i => al.getD i default)

/-- `attList.hasCoverage`: some attestation of the list has exactly the given
coverage (XOR popcount zero). -/
def hasCoverage (al : List Attestation) (coverage : List Bool) : Bool :=
  al.any (fun a => bCount (bXor a.aggregationBits coverage) == 0)

/-- Insert into a list sorted by descending popcount, after any element of
equal popcount.  Go's `sort.Slice` runs insertion sort, which this models
exactly, on slices shorter than 12 (all concrete inputs evaluated here);
for longer slices Go's tie order is unspecified, and no theorem below
depends on the order among equal popcounts. -/
def insertByCountDesc (x : Attestation) : List Attestation → List Attestation
  | [] => [x]
  | y :: ys =>
    if bCount x.aggregationBits > bCount y.aggregationBits then x :: y :: ys
    else y :: insertByCountDesc x ys

/-- Sort by descending popcount, stable (see `insertByCountDesc`). -/
def sortByCountDesc (al : List Attestation) : List Attestation :=
  al.foldr insertByCountDesc []

/-- The compaction pass of `attList.filterContained`: keep an item unless its
bits are contained in the most recently kept item's bits. -/
def fcKeep (last : Attestation) : List Attestation → List Attestation
  | [] => []
  | x :: xs =>
    if bContains last.aggregationBits x.aggregationBits then fcKeep last xs
    else x :: fcKeep x xs

/-- `attList.filterContained`: sort by descending popcount, keep the first
item, then keep each item not contained in the most recently kept one. -/
def attList.filterContained (al : List Attestation) : List Attestation :=
  if al.length < 2 then al
  else
    match sortByCountDesc al with
    | [] => []
    | a :: rest => a :: fcKeep a rest

/-- `attList.filterContained` with its effect on the caller's backing array:
the unaggregated items are the length-`m` front of `arr`; sorting happens in
place on that front and the kept items are compacted into its start.
Returns (kept survivors, the backing array afterwards). -/
def filterContainedArr (arr : List Attestation) (m : Nat) :
    List Attestation × List Attestation :=
  let front := arr.take m
  let kept := attList.filterContained front
  if front.length < 2 then (kept, arr)
  else (kept, kept ++ (sortByCountDesc front).drop kept.length ++ arr.drop m)

/-- The outcome of the straightforward engine's main loop: the aggregates so
far, the caller's backing array, the length of its live unaggregated front,
the number of solver rounds run, and on the error path the error. -/
inductive NaiveLoopOut where
  | err (aggregated : List Attestation) (arr : List Attestation) (m : Nat)
      (e : AggError) (rounds : Nat)
  | done (aggregated : List Attestation) (arr : List Attestation) (m : Nat)
      (rounds : Nat)
deriving DecidableEq, Repr

/-- The main loop of `MaxCoverAttestationAggregation` (lines 34-60): while at
least two unaggregated items remain, solve max-cover over them with budget
`n` = the original input count, stop when the winning selection has fewer
than two members, skip materializing when the coverage already exists, and
remove the selected items by compacting the complement into the front of the
caller's array. -/
def naiveLoop (n : Nat) :
    Nat → List Attestation → List Attestation → Nat → Nat → NaiveLoopOut
  | 0, aggregated, arr, m, rounds => .done aggregated arr m rounds
  | fuel+1, aggregated, arr, m, rounds =>
    if m < 2 then .done aggregated arr m rounds
    else
      let unagg := arr.take m
      match maxCover (unagg.map (fun a => a.aggregationBits)) n with
      | .error e => .err aggregated arr m e (rounds+1)
      | .ok (keys, coverage) =>
        if keys.length < 2 then .done aggregated arr m (rounds+1)
        else if hasCoverage aggregated coverage then
          let kept := selectComplementUsingKeys unagg keys
          naiveLoop n fuel aggregated (kept ++ arr.drop kept.length) kept.length (rounds+1)
        else
          match attList.aggregate (selectUsingKeys unagg keys) coverage with
          | .error e => .err aggregated arr m e (rounds+1)
          | .ok att =>
            let kept := selectComplementUsingKeys unagg keys
            naiveLoop n fuel (aggregated ++ [att]) (kept ++ arr.drop kept.length)
              kept.length (rounds+1)

/-- What `MaxCoverAttestationAggregation` gives back: the returned list, the
returned error, and the contents of the caller's backing array after the
call (the Go function receives the caller's slice and works on it). -/
structure NaiveOut where
  result : List Attestation
  error : Option AggError
  callerArr : List Attestation
deriving DecidableEq, Repr

/-- `MaxCoverAttestationAggregation`: fewer than 2 inputs are returned
unchanged; a `BitsLengthMismatch` validation failure returns the input with
no error; any other validation failure is fatal with no result; otherwise up
to `n/2` solver rounds run and the aggregates are merged with the
containment-filtered survivors. -/
def MaxCoverAttestationAggregation (atts : List Attestation) : NaiveOut :=
  if atts.length < 2 then ⟨atts, none, atts⟩
  else
    match validate atts with
    | some AggError.bitsDifferentLen => ⟨atts, none, atts⟩
    | some e => ⟨[], some e, atts⟩
    | none =>
      match naiveLoop atts.length (atts.length / 2) [] atts atts.length 0 with
      | .err aggregated arr m e _ => ⟨aggregated ++ arr.take m, some e, arr⟩
      | .done aggregated arr m _ =>
        let p := filterContainedArr arr m
        ⟨aggregated ++ p.1, none, p.2⟩

/-- The number of solver rounds `MaxCoverAttestationAggregation` runs. -/
def naiveRounds (atts : List Attestation) : Nat :=
  if atts.length < 2 then 0
  else
    match validate atts with
    | some _ => 0
    | none =>
      match naiveLoop atts.length (atts.length / 2) [] atts atts.length 0 with
      | .err _ _ _ _ r => r
      | .done _ _ _ r => r

/-- Read a Go slice element: `none` is the index-out-of-range panic. -/
def setO (l : List α) (i : Nat) (x : α) : Option (List α) :=
  if i < l.length then some (l.set i x) else none

/-- Swap two Go slice elements: `none` is the index-out-of-range panic. -/
def swapO (l : List α) (i j : Nat) : Option (List α) :=
  match l.get? i, l.get? j with
  | some xi, some xj => some ((l.set i xj).set j xi)
  | _, _ => none

/-- The state of `optMaxCoverAttestationAggregation`: the two backing arrays
(`atts`, whose elements may have been set to Go `nil`, and the candidates
array), the length of the `aggregated` front of `atts`, the offset and
length of the `unaggregated` window into `atts`, the offset and length of
the `candidates` window into the candidates array, and the running covered
bit vector. -/
structure OptState where
  attsArr : List (Option Attestation)
  candArr : List (Option (List Bool))
  aggLen : Nat
  uStart : Nat
  uLen : Nat
  cStart : Nat
  cLen : Nat
  covered : List Bool
deriving DecidableEq, Repr

/-- Decode signatures of `atts[idx]` for each key in order (the loop of
`aggregateAttestations`): outer `none` is a panic (index out of range or a
nil attestation dereference), `.error` the first malformed signature. -/
def decodeSigsAt (attsArr : List (Option Attestation)) :
    List Nat → Option (Except AggError (List Nat))
  | [] => some (.ok [])
  | idx :: rest =>
    match attsArr.get? idx with
    | none => none
    | some none => none
    | some (some a) =>
      match a.signature with
      | none => some (.error .invalidSignature)
      | some s =>
        match decodeSigsAt attsArr rest with
        | none => none
        | some (.error e) => some (.error e)
        | some (.ok ss) => some (.ok (s :: ss))

/-- `aggregateAttestations` (lines 181-208): guard against fewer than 2
selected keys, decode the selected signatures, then overwrite the slot of
the first selected key (the target index) with the materialized aggregate.
Outer `none` is a panic; `.error` a returned error with `atts` untouched. -/
def aggregateAttestations (attsArr : List (Option Attestation)) (keys : List Nat)
    (coverage : List Bool) :
    Option (Except AggError (Nat × List (Option Attestation))) :=
  if keys.length < 2 then some (.error .invalidAttestationCount)
  else
    match decodeSigsAt attsArr keys with
    | none => none
    | some (.error e) => some (.error e)
    | some (.ok signs) =>
      match keys with
      | [] => some (.error .invalidAttestationCount)
      | t :: _ =>
        match attsArr.get? t with
        | none => none
        | some none => none
        | some (some a0) =>
          match setO attsArr t (some { aggregationBits := coverage
                                       data := a0.data
                                       signature := some (signs.foldl (· + ·) 0) }) with
          | none => none
          | some arr1 => some (.ok (t, arr1))

/-- The nil-ing pass of `rearrangeProcessedAttestations`: each processed key
is set to nil in the `atts` slice (absolute index) and in the `candidates`
window (index relative to `cStart`, bounds-checked against `cLen`). -/
def setNilPhase (attsArr : List (Option Attestation))
    (candArr : List (Option (List Bool))) (cStart cLen : Nat) :
    List Nat → Option (List (Option Attestation) × List (Option (List Bool)))
  | [] => some (attsArr, candArr)
  | idx :: rest =>
    match setO attsArr idx none with
    | none => none
    | some attsArr1 =>
      if idx < cLen then
        match setO candArr (cStart + idx) none with
        | none => none
        | some candArr1 => setNilPhase attsArr1 candArr1 cStart cLen rest
      else none

/-- The scan of `rearrangeProcessedAttestations`: starting from `idx1`, step
left while above `idx0` and the `atts` element there is nil. -/
def findSwapIdx (attsArr : List (Option Attestation)) (idx0 : Nat) : Nat → Nat
  | 0 => 0
  | i+1 =>
    if i+1 > idx0 && (attsArr.getD (i+1) none).isNone then findSwapIdx attsArr idx0 i
    else i+1

/-- The swap pass of `rearrangeProcessedAttestations`: move each nil-ed slot
to the end, swapping in the `atts` slice (absolute indices) and in the
`candidates` window (relative indices, bounds-checked against `cLen`). -/
def swapPhase (attsArr : List (Option Attestation))
    (candArr : List (Option (List Bool))) (cStart cLen n : Nat) :
    List Nat → Option (List (Option Attestation) × List (Option (List Bool)))
  | [] => some (attsArr, candArr)
  | idx0 :: rest =>
    let idx1 := findSwapIdx attsArr idx0 (n - 1)
    if idx0 == idx1 then swapPhase attsArr candArr cStart cLen n rest
    else
      match swapO attsArr idx0 idx1 with
      | none => none
      | some attsArr1 =>
        if idx0 < cLen && idx1 < cLen then
          match swapO candArr (cStart + idx0) (cStart + idx1) with
          | none => none
          | some candArr1 => swapPhase attsArr1 candArr1 cStart cLen n rest
        else none

/-- The aggregation branch of one optimized round (lines 117-138), entered
when the round's coverage differs from the covered-so-far bits: materialize
the aggregate in place, swap it to the partition boundary when not already
there (only then is the `aggregated` front expanded, as written), shift the
`unaggregated` and `candidates` windows right by one and clear the target
key.  Outer `none` is a panic; `.error` the error path; `.ok` the new state
with the remaining processed keys. -/
def aggRound (st : OptState) (keys : List Nat) (coverage : List Bool) :
    Option (Except AggError (OptState × List Nat)) :=
  match aggregateAttestations st.attsArr keys coverage with
  | none => none
  | some (.error e) => some (.error e)
  | some (.ok (aggIdx, attsArr1)) =>
    let idx0 := st.aggLen
    let afterSwap : Option (List (Option Attestation) × List (Option (List Bool)) × Nat) :=
      if idx0 < aggIdx then
        match swapO attsArr1 idx0 aggIdx with
        | none => none
        | some a2 =>
          if idx0 < st.cLen && aggIdx < st.cLen then
            match swapO st.candArr (st.cStart + idx0) (st.cStart + aggIdx) with
            | none => none
            | some c2 => some (a2, c2, idx0 + 1)
          else none
      else some (attsArr1, st.candArr, st.aggLen)
    match afterSwap with
    | none => none
    | some (a2, c2, aggLen2) =>
      if st.cLen < 1 then none
      else
        some (.ok ({ st with
                      attsArr := a2
                      candArr := c2
                      aggLen := aggLen2
                      uStart := st.uStart + 1
                      uLen := st.uLen - 1
                      cStart := st.cStart + 1
                      cLen := st.cLen - 1
                      covered := bOr st.covered coverage },
                   keys.erase aggIdx))

/-- The outcome of the optimized engine's main loop: a panic, an error
return carrying the `aggregated` front and the `unaggregated` window as
read at the return, or the final state; each with the rounds run. -/
inductive OptLoopOut where
  | panicked (rounds : Nat)
  | errOut (agg unagg : List (Option Attestation)) (e : AggError) (rounds : Nat)
  | done (st : OptState) (rounds : Nat)
deriving DecidableEq, Repr

/-- The main loop of `optMaxCoverAttestationAggregation` (lines 98-145):
solve max-cover over the current candidates window (budget = its length),
stop when fewer than 2 keys win, aggregate in place when coverage grows,
then nil out and push back the processed slots and shrink the two windows —
the `candidates` window by `len(unaggregated)-len(processedKeys)` where the
`unaggregated` length has already been shrunk, as written. -/
def optLoop (n : Nat) : Nat → OptState → Nat → OptLoopOut
  | 0, st, rounds => .done st rounds
  | fuel+1, st, rounds =>
    if st.uLen < 2 then .done st rounds
    else if st.cStart + st.cLen > st.candArr.length then .panicked (rounds+1)
    else
      let candWin := (st.candArr.drop st.cStart).take st.cLen
      if candWin.any Option.isNone then .panicked (rounds+1)
      else
        match maxCover (candWin.map (fun c => c.getD [])) st.cLen with
        | .error e =>
          .errOut (st.attsArr.take st.aggLen) ((st.attsArr.drop st.uStart).take st.uLen)
            e (rounds+1)
        | .ok (selKeys, coverage) =>
          let keys := (List.range st.cLen).filter (fun i => selKeys.contains i)
          if keys.length < 2 then .done st (rounds+1)
          else
            let branch :=
              if bCount (bXor st.covered coverage) > 0 then aggRound st keys coverage
              else some (.ok (st, keys))
            match branch with
            | none => .panicked (rounds+1)
            | some (.error e) =>
              .errOut (st.attsArr.take st.aggLen)
                ((st.attsArr.drop st.uStart).take st.uLen) e (rounds+1)
            | some (.ok (st1, processedKeys)) =>
              match setNilPhase st1.attsArr st1.candArr st1.cStart st1.cLen processedKeys with
              | none => .panicked (rounds+1)
              | some (a2, c2) =>
                match swapPhase a2 c2 st1.cStart st1.cLen n processedKeys with
                | none => .panicked (rounds+1)
                | some (a3, c3) =>
                  let p := processedKeys.length
                  if p > st1.uLen then .panicked (rounds+1)
                  else
                    let uLen2 := st1.uLen - p
                    if p > uLen2 then .panicked (rounds+1)
                    else
                      let cLen2 := uLen2 - p
                      if st1.cStart + cLen2 > c3.length then .panicked (rounds+1)
                      else
                        optLoop n fuel
                          { st1 with
                              attsArr := a3
                              candArr := c3
                              uLen := uLen2
                              cLen := cLen2 } (rounds+1)

/-- `attList.filterContained` as invoked by the optimized engine on its
`unaggregated` window of possibly-nil slots: touching a nil attestation's
bits (which the sort comparator does whenever the window has at least two
items) is a panic. -/
def filterContainedOpt (al : List (Option Attestation)) :
    Option (List (Option Attestation)) :=
  if al.length < 2 then some al
  else if al.any Option.isNone then none
  else some ((attList.filterContained (al.filterMap id)).map some)

/-- What `optMaxCoverAttestationAggregation` gives back: a runtime panic, or
a returned list (of possibly-nil slots) and error. -/
inductive OptOut where
  | panicked
  | ok (result : List (Option Attestation)) (error : Option AggError)
deriving DecidableEq, Repr

/-- The initial state of the optimized engine: both windows cover the whole
arrays, candidates are the attestations' bit vectors (the `Bitlist` →
`Bitlist64` byte conversion is round-trip exact per §4.1/§6), nothing is
aggregated and nothing is covered. -/
def optInit (atts : List Attestation) : OptState :=
  { attsArr := atts.map some
    candArr := atts.map (fun a => some a.aggregationBits)
    aggLen := 0
    uStart := 0
    uLen := atts.length
    cStart := 0
    cLen := atts.length
    covered := bZero (atts.headD default).aggregationBits.length }

/-- `optMaxCoverAttestationAggregation`: fewer than 2 inputs are returned
unchanged; a `BitsLengthMismatch` validation failure returns the input with
no error; any other validation failure is fatal with no result; otherwise up
to `n/2` rounds run in place and the `aggregated` front is concatenated with
the containment-filtered `unaggregated` window. -/
def optMaxCoverAttestationAggregation (atts : List Attestation) : OptOut :=
  if atts.length < 2 then .ok (atts.map some) none
  else
    match validateAttestations atts with
    | some AggError.bitsDifferentLen => .ok (atts.map some) none
    | some e => .ok [] (some e)
    | none =>
      match optLoop atts.length (atts.length / 2) (optInit atts) 0 with
      | .panicked _ => .panicked
      | .errOut agg unagg e _ => .ok (agg ++ unagg) (some e)
      | .done st _ =>
        match filterContainedOpt ((st.attsArr.drop st.uStart).take st.uLen) with
        | none => .panicked
        | some filtered => .ok (st.attsArr.take st.aggLen ++ filtered) none

/-- The number of solver rounds `optMaxCoverAttestationAggregation` runs. -/
def optRounds (atts : List Attestation) : Nat :=
  if atts.length < 2 then 0
  else
    match validateAttestations atts with
    | some _ => 0
    | none =>
      match optLoop atts.length (atts.length / 2) (optInit atts) 0 with
      | .panicked r => r
      | .errOut _ _ _ r => r
      | .done _ r => r

/-- The rounds count carried by a straightforward-loop outcome. -/
def NaiveLoopOut.roundsOf : NaiveLoopOut → Nat
  | .err _ _ _ _ r => r
  | .done _ _ _ r => r

/-- The rounds count carried by an optimized-loop outcome. -/
def OptLoopOut.roundsOf : OptLoopOut → Nat
  | .panicked r => r
  | .errOut _ _ _ r => r
  | .done _ r => r

/-- True unless the error is the defensive `InvalidAttestationCount`. -/
def AggError.notCountGuard : AggError → Bool
  | .invalidAttestationCount => false
  | _ => true

/-- The straightforward engine's returned error is not the defensive guard. -/
def naiveNoCountGuard (o : NaiveOut) : Bool :=
  match o.error with
  | some e => e.notCountGuard
  | none => true

/-- The optimized engine's returned error is not the defensive guard. -/
def optNoCountGuard : OptOut → Bool
  | .ok _ (some e) => e.notCountGuard
  | _ => true

/-- The caller's backing array carried by a straightforward-loop outcome. -/
def NaiveLoopOut.arrOf : NaiveLoopOut → List Attestation
  | .err _ arr _ _ _ => arr
  | .done _ arr _ _ => arr

/-- The unaggregated-front length carried by a straightforward-loop outcome. -/
def NaiveLoopOut.mOf : NaiveLoopOut → Nat
  | .err _ _ m _ _ => m
  | .done _ _ m _ => m

/-- Union of a list of equal-length bit vectors. -/
def unionOfBits (l : List (List Bool)) : List Bool :=
  l.foldl bOr (bZero (l.headD []).length)

/-- Two attestations with disjoint bits over a 2-bit committee. -/
def attPair : List Attestation :=
  [⟨[true, false], 0, some 1⟩, ⟨[false, true], 0, some 2⟩]

/-- Scenario A of the spec: the 6-bit inputs 100100, 010010, 001000 with
identical vote data and decodable signatures. -/
def attTriple : List Attestation :=
  [⟨[true, false, false, true, false, false], 0, some 1⟩,
   ⟨[false, true, false, false, true, false], 0, some 2⟩,
   ⟨[false, false, true, false, false, false], 0, some 3⟩]

/-- Three 6-bit attestations 110000, 001100, 100000: the first two merge and
the third overlaps the first, so it survives although contained in the
aggregate. -/
def attContain : List Attestation :=
  [⟨[true, true, false, false, false, false], 0, some 1⟩,
   ⟨[false, false, true, true, false, false], 0, some 2⟩,
   ⟨[true, false, false, false, false, false], 0, some 3⟩]

/-- The same three attestations, for the frame claim about the caller's
array. -/
def attContainFrame : List Attestation :=
  [⟨[true, true, false, false, false, false], 0, some 1⟩,
   ⟨[false, false, true, true, false, false], 0, some 2⟩,
   ⟨[true, false, false, false, false, false], 0, some 3⟩]

/-- Two disjoint attestations whose first signature does not decode. -/
def attBadSig : List Attestation :=
  [⟨[true, false], 0, none⟩, ⟨[false, true], 0, some 1⟩]

/-- Two attestations of different bit-vector lengths. -/
def attMismatch : List Attestation :=
  [⟨[true], 0, some 1⟩, ⟨[true, true], 0, some 2⟩]

/-- Claim C1, the code at a failing input: on two disjoint attestations the
optimized engine panics (index out of range in
`rearrangeProcessedAttestations`: the `candidates` window was already
advanced by one, line 134, but the processed keys index the pre-advance
window), so it returns nothing at all and in particular does not preserve
the union of the aggregation bits; the straightforward engine does preserve
the union at this input. -/
theorem c1_opt_loses_coverage :
    optMaxCoverAttestationAggregation attPair = OptOut.panicked ∧
    unionOfBits ((MaxCoverAttestationAggregation attPair).result.map
        (fun a => a.aggregationBits)) =
      unionOfBits (attPair.map (fun a => a.aggregationBits)) := by
  exact ⟨by decide, by decide⟩

/-- Claim C2, the code at a failing input: on the three pairwise-disjoint
Scenario-A attestations the straightforward engine returns a single
aggregate with coverage 111110 and no error, while the optimized engine
panics, so the two variants do not return the same multiset of coverage bit
vectors there. -/
theorem c2_variants_disagree :
    (MaxCoverAttestationAggregation attTriple).result.map (fun a => a.aggregationBits) =
      [[true, true, true, true, true, false]] ∧
    (MaxCoverAttestationAggregation attTriple).error = none ∧
    optMaxCoverAttestationAggregation attTriple = OptOut.panicked := by
  exact ⟨by decide, by decide, by decide⟩

/-- Claim C3 is false as stated: on `attContain` the straightforward engine
returns the aggregate 111100 together with the surviving attestation 100000,
whose bits are a strict subset of the aggregate's (contained one way, not
the other), so the final list does contain a strictly-contained pair. -/
theorem c3_counterexample :
    (MaxCoverAttestationAggregation attContain).result.map (fun a => a.aggregationBits) =
      [[true, true, true, true, false, false], [true, false, false, false, false, false]] ∧
    bContains [true, true, true, true, false, false]
      [true, false, false, false, false, false] = true ∧
    bContains [true, false, false, false, false, false]
      [true, true, true, true, false, false] = false := by
  exact ⟨by decide, by decide, by decide⟩

/-- Claim C4 is false as stated: on the Scenario-A input the returned list
has exactly one element, and neither the claimed aggregate 110110 nor the
claimed survivor 001000 occurs in it (the solver also selects the third
candidate, which is disjoint from the first two). -/
theorem c4_counterexample :
    (MaxCoverAttestationAggregation attTriple).result.length = 1 ∧
    ((MaxCoverAttestationAggregation attTriple).result.map
        (fun a => a.aggregationBits)).contains [true, true, false, true, true, false] = false ∧
    ((MaxCoverAttestationAggregation attTriple).result.map
        (fun a => a.aggregationBits)).contains
      [false, false, true, false, false, false] = false := by
  exact ⟨by decide, by decide, by decide⟩

/-- Claim C4 as amended: on the Scenario-A input the straightforward engine
returns, with no error, exactly one materialized aggregate whose bits 111110
are the union of all three pairwise-disjoint inputs, and no surviving
attestation. -/
theorem c4_amended :
    (MaxCoverAttestationAggregation attTriple).result.map (fun a => a.aggregationBits) =
      [[true, true, true, true, true, false]] ∧
    (MaxCoverAttestationAggregation attTriple).error = none := by
  exact ⟨by decide, by decide⟩

/-- Claim C10 is false as stated: after the call on `attContainFrame` the
caller's backing array holds 100000, 001100, 100000 — the complement
compaction overwrote the first slot and duplicated the third — which differs
from the original attestation sequence. -/
theorem c10_counterexample :
    (MaxCoverAttestationAggregation attContainFrame).callerArr =
      [⟨[true, false, false, false, false, false], 0, some 3⟩,
       ⟨[false, false, true, true, false, false], 0, some 2⟩,
       ⟨[true, false, false, false, false, false], 0, some 3⟩] ∧
    decide ((MaxCoverAttestationAggregation attContainFrame).callerArr =
      attContainFrame) = false := by
  exact ⟨by decide, by decide⟩

/-- Claim C6: an input with fewer than 2 attestations (the nil and the empty
list included) is returned unchanged by both engine variants, with no
error. -/
theorem c6_short_input_unchanged (atts : List Attestation) (h : atts.length < 2) :
    MaxCoverAttestationAggregation atts = ⟨atts, none, atts⟩ ∧
    optMaxCoverAttestationAggregation atts = OptOut.ok (atts.map some) none := by
  unfold MaxCoverAttestationAggregation optMaxCoverAttestationAggregation
  rw [if_pos h, if_pos h]
  exact ⟨rfl, rfl⟩

/-- Claim C6, witnessed at the empty list. -/
theorem c6_witness :
    MaxCoverAttestationAggregation [] = ⟨[], none, []⟩ ∧
    optMaxCoverAttestationAggregation [] = OptOut.ok [] none :=
  c6_short_input_unchanged [] (by decide)

theorem fcKeep_chain (xs : List Attestation) : ∀ last : Attestation,
    List.Chain' (fun x y => bContains x.aggregationBits y.aggregationBits = false)
      (last :: fcKeep last xs) := by
  induction xs with
  | nil => intro last; simp [fcKeep]
  | cons x xs ih =>
    intro last
    rw [fcKeep]
    by_cases h : bContains last.aggregationBits x.aggregationBits = true
    · rw [if_pos h]; exact ih last
    · have h' : bContains last.aggregationBits x.aggregationBits = false :=
        Bool.not_eq_true _ ▸ h
      rw [if_neg h]
      exact List.chain'_cons.mpr ⟨h', ih x⟩

/-- Claim C3 as amended: after the containment filter, adjacent kept
survivors are containment-free — each kept attestation's bits are not a
subset of the bits of the survivor kept immediately before it.  (Pairs with
a materialized aggregate, and non-adjacent survivor pairs, can still be
strictly contained: the filter only compares against the most recently kept
item.) -/
theorem c3_amended (al : List Attestation) :
    List.Chain' (fun x y => bContains x.aggregationBits y.aggregationBits = false)
      (attList.filterContained al) := by
  rw [attList.filterContained]
  by_cases h : al.length < 2
  · rw [if_pos h]
    match al with
    | [] => simp
    | [x] => simp
    | x :: y :: t => exact absurd h (by simp)
  · rw [if_neg h]
    match hs : sortByCountDesc al with
    | [] => simp
    | a :: rest => exact fcKeep_chain rest a

theorem validate_mixed_len (atts : List Attestation) (h2 : 2 ≤ atts.length)
    (hhead : (atts.headD default).aggregationBits.length ≠ 0)
    (hmix : ∃ a ∈ atts,
      a.aggregationBits.length ≠ (atts.headD default).aggregationBits.length) :
    validate atts = some AggError.bitsDifferentLen := by
  match atts with
  | [] => simp at h2
  | a0 :: rest =>
    simp only [List.headD_cons] at hhead hmix
    rw [validate, if_neg hhead]
    have hall : rest.all
        (fun a => a.aggregationBits.length == a0.aggregationBits.length) = false := by
      obtain ⟨a, hmem, hne⟩ := hmix
      rcases List.mem_cons.mp hmem with rfl | hmem
      · exact absurd rfl hne
      · rw [List.all_eq_false]
        exact ⟨a, hmem, by simpa using hne⟩
    rw [hall]
    rfl

/-- Claim C5: an input of at least 2 attestations whose first bit vector is
non-empty but which mixes two different bit-vector lengths makes validation
signal the specific non-fatal `BitsDifferentLen`, and both engine variants
return the original input unchanged with no error (never a fatal one). -/
theorem c5_mixed_lengths_nonfatal (atts : List Attestation) (h2 : 2 ≤ atts.length)
    (hhead : (atts.headD default).aggregationBits.length ≠ 0)
    (hmix : ∃ a ∈ atts,
      a.aggregationBits.length ≠ (atts.headD default).aggregationBits.length) :
    validate atts = some AggError.bitsDifferentLen ∧
    MaxCoverAttestationAggregation atts = ⟨atts, none, atts⟩ ∧
    optMaxCoverAttestationAggregation atts = OptOut.ok (atts.map some) none := by
  have hval := validate_mixed_len atts h2 hhead hmix
  refine ⟨hval, ?_, ?_⟩
  · rw [MaxCoverAttestationAggregation, if_neg (by omega), hval]
  · rw [optMaxCoverAttestationAggregation, if_neg (by omega), validateAttestations, hval]

/-- Claim C5, witnessed at a pair mixing lengths 1 and 2. -/
theorem c5_witness :
    validate attMismatch = some AggError.bitsDifferentLen ∧
    MaxCoverAttestationAggregation attMismatch = ⟨attMismatch, none, attMismatch⟩ ∧
    optMaxCoverAttestationAggregation attMismatch = OptOut.ok (attMismatch.map some) none :=
  c5_mixed_lengths_nonfatal attMismatch (by decide) (by decide)
    ⟨⟨[true, true], 0, some 2⟩, by decide, by decide⟩

theorem naiveLoop_rounds_le (n : Nat) : ∀ fuel agg arr m r,
    (naiveLoop n fuel agg arr m r).roundsOf ≤ r + fuel := by
  intro fuel
  induction fuel with
  | zero => intro agg arr m r; simp [naiveLoop, NaiveLoopOut.roundsOf]
  | succ k ih =>
    intro agg arr m r
    simp only [naiveLoop]
    repeat' split
    all_goals first
      | (simp only [NaiveLoopOut.roundsOf]; omega)
      | exact le_trans (ih _ _ _ _) (by omega)

theorem optLoop_rounds_le (n : Nat) : ∀ fuel st r,
    (optLoop n fuel st r).roundsOf ≤ r + fuel := by
  intro fuel
  induction fuel with
  | zero => intro st r; simp [optLoop, OptLoopOut.roundsOf]
  | succ k ih =>
    intro st r
    simp only [optLoop]
    repeat' split
    all_goals first
      | (simp only [OptLoopOut.roundsOf]; omega)
      | exact le_trans (ih _ _) (by omega)

/-- Claim C7: for an input of `n` attestations, the main loop of each engine
variant runs at most `n / 2` solver rounds (each variant's loop is bounded
by that fuel and exits early when fewer than 2 unaggregated items remain or
the winning selection has fewer than 2 members), so every call terminates. -/
theorem c7_rounds_bounded (atts : List Attestation) :
    naiveRounds atts ≤ atts.length / 2 ∧ optRounds atts ≤ atts.length / 2 := by
  constructor
  · rw [naiveRounds]
    split
    · omega
    · split
      · omega
      · have h := naiveLoop_rounds_le atts.length (atts.length / 2) [] atts atts.length 0
        revert h
        cases naiveLoop atts.length (atts.length / 2) [] atts atts.length 0 <;>
          simp [NaiveLoopOut.roundsOf]
  · rw [optRounds]
    split
    · omega
    · split
      · omega
      · have h := optLoop_rounds_le atts.length (atts.length / 2) (optInit atts) 0
        revert h
        cases optLoop atts.length (atts.length / 2) (optInit atts) 0 <;>
          simp [OptLoopOut.roundsOf]

/-- Claim C8: when either engine terminates with a non-nil error after
validation has passed, the returned list is not discarded: it is exactly the
aggregates the loop had materialized so far concatenated with the
attestations that remained unaggregated at the failing round. -/
theorem c8_error_keeps_partial_result (atts : List Attestation) (e : AggError)
    (hv : validate atts = none) :
    ((MaxCoverAttestationAggregation atts).error = some e →
      ∃ agg arr m r,
        naiveLoop atts.length (atts.length / 2) [] atts atts.length 0 =
          NaiveLoopOut.err agg arr m e r ∧
        (MaxCoverAttestationAggregation atts).result = agg ++ arr.take m) ∧
    (∀ res, optMaxCoverAttestationAggregation atts = OptOut.ok res (some e) →
      ∃ agg unagg r,
        optLoop atts.length (atts.length / 2) (optInit atts) 0 =
          OptLoopOut.errOut agg unagg e r ∧
        res = agg ++ unagg) := by
  constructor
  · intro herr
    rw [MaxCoverAttestationAggregation] at herr ⊢
    by_cases hlen : atts.length < 2
    · rw [if_pos hlen] at herr; simp at herr
    · rw [if_neg hlen, hv] at herr ⊢
      revert herr
      cases hloop : naiveLoop atts.length (atts.length / 2) [] atts atts.length 0 with
      | err agg arr m e' r =>
        intro herr
        simp only at herr
        obtain rfl : e' = e := by simpa using herr
        exact ⟨agg, arr, m, r, rfl, rfl⟩
      | done agg arr m r => intro herr; simp at herr
  · intro res herr
    rw [optMaxCoverAttestationAggregation] at herr
    by_cases hlen : atts.length < 2
    · rw [if_pos hlen] at herr; simp at herr
    · rw [if_neg hlen, validateAttestations, hv] at herr
      revert herr
      cases hloop : optLoop atts.length (atts.length / 2) (optInit atts) 0 with
      | panicked r => intro herr; simp at herr
      | errOut agg unagg e' r =>
        intro herr
        simp only [OptOut.ok.injEq] at herr
        obtain ⟨rfl, he⟩ := herr
        obtain rfl : e' = e := by simpa using he
        exact ⟨agg, unagg, r, rfl, rfl⟩
      | done st r =>
        intro herr
        cases hfc : filterContainedOpt ((st.attsArr.drop st.uStart).take st.uLen) with
        | none => simp [hfc] at herr
        | some filtered => simp [hfc] at herr

/-- Claim C8, witnessed at two disjoint attestations whose first signature
does not decode: both variants report `InvalidSignature` and return the
whole input (no aggregate yet, everything unaggregated). -/
theorem c8_witness :
    validate attBadSig = none ∧
    (MaxCoverAttestationAggregation attBadSig).error = some AggError.invalidSignature ∧
    optMaxCoverAttestationAggregation attBadSig =
      OptOut.ok (attBadSig.map some) (some AggError.invalidSignature) ∧
    (((MaxCoverAttestationAggregation attBadSig).error = some AggError.invalidSignature →
      ∃ agg arr m r,
        naiveLoop attBadSig.length (attBadSig.length / 2) [] attBadSig attBadSig.length 0 =
          NaiveLoopOut.err agg arr m AggError.invalidSignature r ∧
        (MaxCoverAttestationAggregation attBadSig).result = agg ++ arr.take m) ∧
    (∀ res, optMaxCoverAttestationAggregation attBadSig =
        OptOut.ok res (some AggError.invalidSignature) →
      ∃ agg unagg r,
        optLoop attBadSig.length (attBadSig.length / 2) (optInit attBadSig) 0 =
          OptLoopOut.errOut agg unagg AggError.invalidSignature r ∧
        res = agg ++ unagg)) :=
  ⟨by decide, by decide, by decide,
   c8_error_keeps_partial_result attBadSig AggError.invalidSignature (by decide)⟩

theorem maxCover_error (cands : List (List Bool)) (k : Nat) (e : AggError)
    (h : maxCover cands k = .error e) : e = AggError.invalidMaxCoverProblem := by
  rw [maxCover] at h
  split at h
  · injection h with h1; exact h1.symm
  · simp at h

theorem decodeSigs_error (al : List Attestation) (e : AggError)
    (h : decodeSigs al = .error e) : e = AggError.invalidSignature := by
  induction al with
  | nil => simp [decodeSigs] at h
  | cons a rest ih =>
    rw [decodeSigs] at h
    split at h
    · injection h with h1; exact h1.symm
    · cases hr : decodeSigs rest with
      | error e1 =>
        simp only [hr, Except.map] at h
        injection h with h1
        subst h1
        exact ih hr
      | ok ss => simp [hr, Except.map] at h

theorem aggregate_error (al : List Attestation) (cov : List Bool) (e : AggError)
    (hlen : ¬al.length < 2) (h : attList.aggregate al cov = .error e) :
    e = AggError.invalidSignature := by
  rw [attList.aggregate, if_neg hlen] at h
  cases hd : decodeSigs al with
  | error e1 =>
    simp only [hd, Except.map] at h
    injection h with h1
    subst h1
    exact decodeSigs_error al _ hd
  | ok ss => simp [hd, Except.map] at h

theorem decodeSigsAt_error (arr : List (Option Attestation)) :
    ∀ keys e, decodeSigsAt arr keys = some (.error e) →
      e = AggError.invalidSignature := by
  intro keys
  induction keys with
  | nil => intro e h; simp [decodeSigsAt] at h
  | cons idx rest ih =>
    intro e h
    rw [decodeSigsAt] at h
    split at h
    · simp at h
    · simp at h
    · split at h
      · simp at h
        exact h.symm
      · split at h
        · simp at h
        · rename_i e1 heq
          simp at h
          exact ih e1 (h ▸ heq) ▸ h.symm ▸ rfl
        · simp at h

theorem aggregateAttestations_error (arr : List (Option Attestation))
    (keys : List Nat) (cov : List Bool) (e : AggError) (hk : ¬keys.length < 2)
    (h : aggregateAttestations arr keys cov = some (.error e)) :
    e = AggError.invalidSignature := by
  rw [aggregateAttestations, if_neg hk] at h
  split at h
  · simp at h
  · rename_i e1 heq
    simp at h
    exact h ▸ decodeSigsAt_error arr keys e1 heq
  · split at h
    · exact absurd (by simp) hk
    · split at h
      · simp at h
      · simp at h
      · split at h
        · simp at h
        · simp at h

theorem aggRound_error (st : OptState) (keys : List Nat) (cov : List Bool)
    (e : AggError) (hk : ¬keys.length < 2)
    (h : aggRound st keys cov = some (.error e)) :
    e = AggError.invalidSignature := by
  rw [aggRound] at h
  cases ha : aggregateAttestations st.attsArr keys cov with
  | none => simp [ha] at h
  | some r =>
    cases r with
    | error e1 =>
      simp only [ha] at h
      injection h with h1
      injection h1 with h2
      subst h2
      exact aggregateAttestations_error st.attsArr keys cov _ hk ha
    | ok p =>
      obtain ⟨aggIdx, attsArr1⟩ := p
      simp only [ha] at h
      repeat' split at h
      all_goals simp at h

theorem validate_error_not_guard (al : List Attestation) (e : AggError)
    (h : validate al = some e) : e.notCountGuard = true := by
  rw [validate.eq_def] at h
  split at h
  · simp at h; subst h; rfl
  · split at h
    · simp at h; subst h; rfl
    · split at h
      · simp at h
      · simp at h; subst h; rfl

theorem naiveLoop_err_not_guard (n : Nat) : ∀ fuel agg arr m r agg1 arr1 m1 e r1,
    naiveLoop n fuel agg arr m r = .err agg1 arr1 m1 e r1 →
    e.notCountGuard = true := by
  intro fuel
  induction fuel with
  | zero =>
    intro agg arr m r agg1 arr1 m1 e r1 h
    simp [naiveLoop] at h
  | succ k ih =>
    intro agg arr m r agg1 arr1 m1 e r1 h
    simp only [naiveLoop] at h
    split at h
    · simp at h
    · split at h
      · rename_i e2 heq
        simp at h
        obtain ⟨-, -, -, rfl, -⟩ := h
        simp [AggError.notCountGuard, maxCover_error _ _ _ heq]
      · split at h
        · simp at h
        · rename_i keys0 cov0 heq0 hklen
          split at h
          · exact ih _ _ _ _ _ _ _ _ _ h
          · split at h
            · rename_i e2 heq
              simp at h
              obtain ⟨-, -, -, rfl, -⟩ := h
              have hsel : ¬(selectUsingKeys (arr.take m) keys0).length < 2 := by
                simpa [selectUsingKeys] using hklen
              simp [AggError.notCountGuard, aggregate_error _ _ _ hsel heq]
            · exact ih _ _ _ _ _ _ _ _ _ h

theorem optLoop_err_not_guard (n : Nat) : ∀ fuel st r agg unagg e r1,
    optLoop n fuel st r = .errOut agg unagg e r1 → e.notCountGuard = true := by
  intro fuel
  induction fuel with
  | zero =>
    intro st r agg unagg e r1 h
    simp [optLoop] at h
  | succ k ih =>
    intro st r agg unagg e r1 h
    simp only [optLoop] at h
    split at h
    · simp at h
    · split at h
      · simp at h
      · split at h
        · simp at h
        · split at h
          · rename_i e2 heq
            simp at h
            obtain ⟨-, -, rfl, -⟩ := h
            simp [AggError.notCountGuard, maxCover_error _ _ _ heq]
          · split at h
            · simp at h
            · rename_i hklen
              split at h
              · simp at h
              · rename_i e2 heq2
                simp at h
                obtain ⟨-, -, rfl, -⟩ := h
                split at heq2
                · simp [AggError.notCountGuard, aggRound_error _ _ _ _ hklen heq2]
                · simp at heq2
              · split at h
                · simp at h
                · split at h
                  · simp at h
                  · split at h
                    · simp at h
                    · split at h
                      · simp at h
                      · split at h
                        · simp at h
                        · exact ih _ _ _ _ _ _ h

/-- Claim C9: the `ErrInvalidAttestationCount` branches of `attList.aggregate`
and `aggregateAttestations` are unreachable from the two orchestrators: each
calls them only after checking that the round's winning selection has at
least 2 members, so neither engine ever returns that error. -/
theorem c9_count_guard_unreachable (atts : List Attestation) :
    naiveNoCountGuard (MaxCoverAttestationAggregation atts) = true ∧
    optNoCountGuard (optMaxCoverAttestationAggregation atts) = true := by
  constructor
  · rw [MaxCoverAttestationAggregation]
    split
    · rfl
    · cases hv : validate atts with
      | none =>
        cases hloop : naiveLoop atts.length (atts.length / 2) [] atts atts.length 0 with
        | err agg arr m e r =>
          simpa [naiveNoCountGuard] using naiveLoop_err_not_guard _ _ _ _ _ _ _ _ _ _ _ hloop
        | done agg arr m r => rfl
      | some e =>
        cases e with
        | bitsDifferentLen => rfl
        | invalidMaxCoverProblem => rfl
        | invalidSignature => rfl
        | invalidAttestationCount =>
          have := validate_error_not_guard atts _ hv
          simp [AggError.notCountGuard] at this
  · rw [optMaxCoverAttestationAggregation]
    split
    · rfl
    · rw [validateAttestations]
      cases hv : validate atts with
      | none =>
        cases hloop : optLoop atts.length (atts.length / 2) (optInit atts) 0 with
        | panicked r => rfl
        | errOut agg unagg e r =>
          simpa [optNoCountGuard] using optLoop_err_not_guard _ _ _ _ _ _ _ _ hloop
        | done st r =>
          cases hfc : filterContainedOpt ((st.attsArr.drop st.uStart).take st.uLen) with
          | none => simp [hfc, optNoCountGuard]
          | some filtered => simp [hfc, optNoCountGuard]
      | some e =>
        cases e with
        | bitsDifferentLen => rfl
        | invalidMaxCoverProblem => rfl
        | invalidSignature => rfl
        | invalidAttestationCount =>
          have := validate_error_not_guard atts _ hv
          simp [AggError.notCountGuard] at this

theorem getD_mem_of_lt (l : List Attestation) (i : Nat) (h : i < l.length) :
    l.getD i default ∈ l := by
  rw [List.getD_eq_getElem?_getD, List.getElem?_eq_getElem h]
  simp

theorem selectComplementUsingKeys_mem (al : List Attestation) (keys : List Nat)
    (a : Attestation) (ha : a ∈ selectComplementUsingKeys al keys) : a ∈ al := by
  rw [selectComplementUsingKeys] at ha
  obtain ⟨i, hi, rfl⟩ := List.mem_map.mp ha
  have hlt : i < al.length := List.mem_range.mp (List.mem_filter.mp hi).1
  exact getD_mem_of_lt al i hlt

theorem selectComplementUsingKeys_length_le (al : List Attestation) (keys : List Nat) :
    (selectComplementUsingKeys al keys).length ≤ al.length := by
  rw [selectComplementUsingKeys, List.length_map]
  calc (List.filter _ (List.range al.length)).length
      ≤ (List.range al.length).length := List.length_filter_le _ _
    _ = al.length := List.length_range _

theorem insertByCountDesc_perm (x : Attestation) (l : List Attestation) :
    (insertByCountDesc x l).Perm (x :: l) := by
  induction l with
  | nil => simp [insertByCountDesc]
  | cons y ys ih =>
    rw [insertByCountDesc]
    split
    · exact List.Perm.refl _
    · exact List.Perm.trans (List.Perm.cons y ih) (List.Perm.swap x y ys)

theorem sortByCountDesc_perm (al : List Attestation) :
    (sortByCountDesc al).Perm al := by
  induction al with
  | nil => simp [sortByCountDesc]
  | cons a rest ih =>
    rw [sortByCountDesc, List.foldr_cons]
    exact List.Perm.trans (insertByCountDesc_perm a _) (List.Perm.cons a ih)

theorem fcKeep_mem (xs : List Attestation) : ∀ last a, a ∈ fcKeep last xs → a ∈ xs := by
  induction xs with
  | nil => intro last a ha; simp [fcKeep] at ha
  | cons x rest ih =>
    intro last a ha
    rw [fcKeep] at ha
    split at ha
    · exact List.mem_cons_of_mem x (ih last a ha)
    · rcases List.mem_cons.mp ha with rfl | hmem
      · exact List.mem_cons_self _ _
      · exact List.mem_cons_of_mem x (ih x a hmem)

theorem fcKeep_length_le (xs : List Attestation) : ∀ last,
    (fcKeep last xs).length ≤ xs.length := by
  induction xs with
  | nil => intro last; simp [fcKeep]
  | cons x rest ih =>
    intro last
    rw [fcKeep]
    split
    · exact le_trans (ih last) (by simp)
    · simpa using ih x

theorem filterContained_mem (al : List Attestation) (a : Attestation)
    (ha : a ∈ attList.filterContained al) : a ∈ al := by
  rw [attList.filterContained] at ha
  split at ha
  · exact ha
  · revert ha
    cases hs : sortByCountDesc al with
    | nil => intro ha; simp at ha
    | cons x rest =>
      intro ha
      have hsub : ∀ b, b ∈ x :: rest → b ∈ al := by
        intro b hb
        exact (sortByCountDesc_perm al).mem_iff.mp (hs ▸ hb)
      rcases List.mem_cons.mp ha with rfl | hmem
      · exact hsub a (List.mem_cons_self _ _)
      · exact hsub a (List.mem_cons_of_mem x (fcKeep_mem rest x a hmem))

theorem filterContained_length_le (al : List Attestation) :
    (attList.filterContained al).length ≤ al.length := by
  rw [attList.filterContained]
  split
  · exact le_rfl
  · cases hs : sortByCountDesc al with
    | nil => simp
    | cons x rest =>
      have hlen : al.length = rest.length + 1 := by
        have := (sortByCountDesc_perm al).length_eq
        rw [hs] at this
        simpa using this.symm
      simp only [List.length_cons, hlen]
      exact Nat.succ_le_succ (fcKeep_length_le rest x)

theorem filterContainedArr_snd_length (arr : List Attestation) (m : Nat)
    (hm : m ≤ arr.length) : (filterContainedArr arr m).2.length = arr.length := by
  rw [filterContainedArr]
  split
  · rfl
  · rename_i hlt
    simp only [List.length_append, List.length_drop]
    have hfront : (arr.take m).length = m := by simp [List.length_take]; omega
    have hsort : (sortByCountDesc (arr.take m)).length = m := by
      rw [(sortByCountDesc_perm _).length_eq, hfront]
    have hkept : (attList.filterContained (arr.take m)).length ≤ m := by
      have := filterContained_length_le (arr.take m)
      omega
    rw [hsort]
    omega

theorem filterContainedArr_snd_mem (arr : List Attestation) (m : Nat)
    (a : Attestation) (ha : a ∈ (filterContainedArr arr m).2) : a ∈ arr := by
  rw [filterContainedArr] at ha
  split at ha
  · exact ha
  · simp only [List.mem_append] at ha
    rcases ha with (hk | hs) | hd
    · exact List.take_subset m arr (filterContained_mem _ a hk)
    · have := List.drop_subset _ _ hs
      exact List.take_subset m arr ((sortByCountDesc_perm _).mem_iff.mp this)
    · exact List.drop_subset m arr hd

theorem naiveLoop_frame (n : Nat) : ∀ fuel agg arr m r, m ≤ arr.length →
    (naiveLoop n fuel agg arr m r).arrOf.length = arr.length ∧
    (naiveLoop n fuel agg arr m r).mOf ≤ arr.length ∧
    ∀ a ∈ (naiveLoop n fuel agg arr m r).arrOf, a ∈ arr := by
  intro fuel
  induction fuel with
  | zero =>
    intro agg arr m r hm
    exact ⟨rfl, hm, fun a ha => ha⟩
  | succ k ih =>
    intro agg arr m r hm
    simp only [naiveLoop]
    split
    · exact ⟨rfl, hm, fun a ha => ha⟩
    · split
      · exact ⟨rfl, hm, fun a ha => ha⟩
      · have harr2 : ∀ keys : List Nat,
            (selectComplementUsingKeys (arr.take m) keys ++
              arr.drop (selectComplementUsingKeys (arr.take m) keys).length).length =
              arr.length := by
          intro keys
          have h1 := le_trans (selectComplementUsingKeys_length_le (arr.take m) keys)
            (List.length_take_le m arr)
          simp [List.length_drop]
          omega
        have hmem2 : ∀ (keys : List Nat) a,
            a ∈ selectComplementUsingKeys (arr.take m) keys ++
              arr.drop (selectComplementUsingKeys (arr.take m) keys).length → a ∈ arr := by
          intro keys a ha
          rcases List.mem_append.mp ha with hk | hd
          · exact List.take_subset m arr (selectComplementUsingKeys_mem _ _ _ hk)
          · exact List.drop_subset _ arr hd
        have hstep : ∀ (agg2 : List Attestation) (keys0 : List Nat),
            (naiveLoop n k agg2
              (selectComplementUsingKeys (arr.take m) keys0 ++
                arr.drop (selectComplementUsingKeys (arr.take m) keys0).length)
              (selectComplementUsingKeys (arr.take m) keys0).length (r+1)).arrOf.length
                = arr.length ∧
            (naiveLoop n k agg2
              (selectComplementUsingKeys (arr.take m) keys0 ++
                arr.drop (selectComplementUsingKeys (arr.take m) keys0).length)
              (selectComplementUsingKeys (arr.take m) keys0).length (r+1)).mOf
                ≤ arr.length ∧
            ∀ a ∈ (naiveLoop n k agg2
              (selectComplementUsingKeys (arr.take m) keys0 ++
                arr.drop (selectComplementUsingKeys (arr.take m) keys0).length)
              (selectComplementUsingKeys (arr.take m) keys0).length (r+1)).arrOf,
              a ∈ arr := by
          intro agg2 keys0
          have hrec := ih agg2
            (selectComplementUsingKeys (arr.take m) keys0 ++
              arr.drop (selectComplementUsingKeys (arr.take m) keys0).length)
            (selectComplementUsingKeys (arr.take m) keys0).length (r+1)
            (by simp)
          exact ⟨by rw [hrec.1, harr2 keys0],
                 le_trans hrec.2.1 (le_of_eq (harr2 keys0)),
                 fun a ha => hmem2 keys0 a (hrec.2.2 a ha)⟩
        repeat' split
        all_goals first
          | exact ⟨rfl, hm, fun a ha => ha⟩
          | exact hstep _ _

/-- Claim C10 as amended: the straightforward engine does not treat the
caller's slice as read-only — the complement compaction and the in-place
containment filter may reorder, overwrite and duplicate its elements (see
the counterexample) — but the call preserves the slice's length and writes
no new objects into it: afterwards it holds only attestations that were
elements of the original input. -/
theorem c10_amended (atts : List Attestation) :
    (MaxCoverAttestationAggregation atts).callerArr.length = atts.length ∧
    ∀ a ∈ (MaxCoverAttestationAggregation atts).callerArr, a ∈ atts := by
  rw [MaxCoverAttestationAggregation]
  split
  · exact ⟨rfl, fun a ha => ha⟩
  · cases hv : validate atts with
    | some e => cases e <;> exact ⟨rfl, fun a ha => ha⟩
    | none =>
      have hf := naiveLoop_frame atts.length (atts.length / 2) [] atts atts.length 0
        le_rfl
      cases hloop : naiveLoop atts.length (atts.length / 2) [] atts atts.length 0 with
      | err agg arr m e r =>
        rw [hloop] at hf
        exact ⟨hf.1, hf.2.2⟩
      | done agg arr m r =>
        rw [hloop] at hf
        simp only [NaiveLoopOut.arrOf, NaiveLoopOut.mOf] at hf
        refine ⟨?_, ?_⟩
        · rw [filterContainedArr_snd_length arr m (hf.1 ▸ hf.2.1)]
          exact hf.1
        · intro a ha
          exact hf.2.2 a (filterContainedArr_snd_mem arr m a ha)
